import Mathlib

/-!
Verification development for the insiders-changelog generator
(scripts/update-data.mjs).  The JavaScript source is shallowly embedded:
every definition below mirrors a function or an inline block of the script,
with machine strings modelled by Lean String, JavaScript truthiness of
strings modelled by an emptiness test, thrown exceptions modelled by
Except, and the files the run writes (state file, build page, preview
file, build-index pages, build metadata) tracked explicitly in a Writes
record.  Network calls are parameters of an Env record.
-/

set_option linter.unusedVariables false
set_option maxRecDepth 4096

deriving instance DecidableEq for Except

/-- JavaScript-style whitespace test for the characters relevant here. -/
def isWsChar (c : Char) : Bool :=
  c == ' ' || c == '\t' || c == '\n' || c == '\r'

/-- Embedding of String.prototype.trim restricted to ASCII whitespace. -/
def jsTrim (s : String) : String :=
  String.mk (((s.data.dropWhile isWsChar).reverse.dropWhile isWsChar).reverse)

/-- Helper for startsWith: does the second list begin with the first? -/
def strStarts : List Char → List Char → Bool
  | [], _ => true
  | _ :: _, [] => false
  | a :: as, b :: bs => if a = b then strStarts as bs else false

/-- Embedding of s.startsWith(value): does s begin with value? -/
def jsStartsWith (s value : String) : Bool :=
  strStarts value.data s.data

/-- Embedding of shortSha: (sha or empty).slice(0, 7). -/
def shortSha (s : String) : String :=
  String.mk (s.data.take 7)

/-- Embedding of Array.prototype.includes for string arrays. -/
def strMem (v : String) : List String → Bool
  | [] => false
  | x :: xs => if x = v then true else strMem v xs

/-- Embedding of Set.prototype.has for natural numbers. -/
def natMem (n : Nat) : List Nat → Bool
  | [] => false
  | x :: xs => if x = n then true else natMem n xs

/-- Embedding of Array.prototype.indexOf: none plays the role of -1. -/
def jsIndexOf : List String → String → Option Nat
  | [], _ => none
  | x :: xs, v => if x = v then some 0 else (jsIndexOf xs v).map (· + 1)

/-- JavaScript truthiness of an optional string: present and nonempty. -/
def truthyOpt : Option String → Bool
  | none => false
  | some s => if s = "" then false else true

/-- Failure kinds thrown by resolveShaPrefixOrThrow: missing input,
ambiguous prefix (with match count and a bounded shortened sample), or an
identifier absent from the feed. -/
inductive ResolveError where
  | missing : ResolveError
  | ambiguous (count : Nat) (sample : List String) : ResolveError
  | notFound : ResolveError
deriving DecidableEq

/-- Embedding of resolveShaPrefixOrThrow: trim the input, reject empty
input, accept an exact feed member, otherwise resolve a unique prefix;
several prefix matches are ambiguous (reporting the match count and the
first eight matches shortened to seven characters), none is not-found. -/
def resolveShaPrefixOrThrow (shas : List String) (input : String) :
    Except ResolveError String :=
  let value := jsTrim input
  if value = "" then .error .missing
  else if strMem value shas then .ok value
  else
    match shas.filter (fun s => jsStartsWith s value) with
    | [] => .error .notFound
    | [m] => .ok m
    | ms => .error (.ambiguous ms.length ((ms.take 8).map shortSha))

/-- Record returned by the list-pull-requests-for-a-commit endpoint; the
script only reads the number field and checks it is a number. -/
structure PRRef where
  number : Option Nat
deriving DecidableEq

/-- Pull-request record as used by the script: its number and its
merged_at timestamp (absent when the PR is not merged). -/
structure PR where
  number : Nat
  merged_at : Option String
deriving DecidableEq

/-- Commit entry of a compare result; the script reads only the sha. -/
structure Commit where
  sha : Option String
deriving DecidableEq

/-- Result of the compare endpoint as consumed by the script. -/
structure CompareResult where
  commits : List Commit
  totalCommits : Option Nat
  htmlUrl : Option String
deriving DecidableEq

/-- Console warnings the collection phase can emit while skipping items. -/
inductive Warning where
  | pullsFailed (sha : String) : Warning
  | prFetchFailed (n : Nat) : Warning
deriving DecidableEq

/-- External collaborators and persisted inputs of one run, as read by
main: the latest-build endpoint, the insiders commits feed, the persisted
lastProcessedBuildSha, the repository default branch, the commit-date and
package-version lookups for the build sha, the compare endpoint, the two
pull-request endpoints, presence of the OpenAI key, and the outcome of
the explainer generation call. -/
structure Env where
  latestSha : Except Unit String
  feed : Except Unit (List String)
  persisted : Option String
  repoInfo : Except Unit String
  getCommitDate : String → Except Unit (Option String)
  getPkgVersion : String → Except Unit (Option String)
  compare : String → String → Except Unit CompareResult
  pullsForCommit : String → Except Unit (List PRRef)
  getPullRequest : Nat → Except Unit PR
  openaiKey : Bool
  explainersResult : Except Unit Unit

/-- Command-line arguments of one run after parsing. -/
structure Args where
  latest : Bool
  buildShaArg : Option String
  previousSha : Option String
  force : Bool
  preview : Bool

/-- Embedding of the prNumbers set accumulation: add each numeric pull
request number once, preserving first-encounter order (JavaScript Set
iteration order is insertion order). -/
def addPrNumbers (acc : List Nat) : List PRRef → List Nat
  | [] => acc
  | r :: rs =>
    match r.number with
    | some n => addPrNumbers (if natMem n acc then acc else acc ++ [n]) rs
    | none => addPrNumbers acc rs

/-- Embedding of the first loop of collectMergedPullRequestsForRange:
walk the commits of the range, collect associated pull request numbers
into the insertion-ordered set, and turn a failed per-commit lookup into
a warning instead of aborting. -/
def collectPrNumbers (env : Env) (acc : List Nat) :
    List Commit → List Nat × List Warning
  | [] => (acc, [])
  | c :: cs =>
    match c.sha with
    | none => collectPrNumbers env acc cs
    | some s =>
      if s = "" then collectPrNumbers env acc cs
      else
        match env.pullsForCommit s with
        | .ok refs => collectPrNumbers env (addPrNumbers acc refs) cs
        | .error _ =>
          let r := collectPrNumbers env acc cs
          (r.1, .pullsFailed (shortSha s) :: r.2)

/-- Embedding of the second loop of collectMergedPullRequestsForRange:
fetch each collected pull request, keep only those with a truthy
merged_at, and turn a failed fetch into a warning instead of aborting. -/
def fetchMergedPrs (env : Env) : List Nat → List PR × List Warning
  | [] => ([], [])
  | n :: ns =>
    match env.getPullRequest n with
    | .error _ =>
      let r := fetchMergedPrs env ns
      (r.1, .prFetchFailed n :: r.2)
    | .ok pr =>
      match pr.merged_at with
      | none => fetchMergedPrs env ns
      | some m =>
        if m = "" then fetchMergedPrs env ns
        else
          let r := fetchMergedPrs env ns
          (pr :: r.1, r.2)

/-- Sort key of the final sort: String(b.merged_at or empty). -/
def mergedKey (pr : PR) : String :=
  pr.merged_at.getD ""

/-- Code-point-wise string order standing in for localeCompare; on the
uniformly formatted ISO timestamps the script compares, locale collation
and code-point order agree. -/
def lexLe : List Char → List Char → Bool
  | [], _ => true
  | _ :: _, [] => false
  | a :: as, b :: bs =>
    if a.toNat < b.toNat then true
    else if b.toNat < a.toNat then false
    else lexLe as bs

/-- Stable insertion step for the descending sort by merged_at: an
element is placed before the first entry whose key is at most its own, so
equal keys keep their original relative order, exactly as the stable
Array.prototype.sort does with this comparator. -/
def insertByMergedDesc (x : PR) : List PR → List PR
  | [] => [x]
  | y :: ys =>
    if lexLe (mergedKey y).data (mergedKey x).data then x :: y :: ys
    else y :: insertByMergedDesc x ys

/-- Stable sort descending by merged_at.  A stable sort is uniquely
determined by its comparator, so this insertion sort computes the same
list as the script's Array.prototype.sort call. -/
def sortByMergedDesc : List PR → List PR
  | [] => []
  | x :: xs => insertByMergedDesc x (sortByMergedDesc xs)

/-- Embedding of collectMergedPullRequestsForRange: collect pull request
numbers over the range (first loop), fetch and filter to merged pull
requests (second loop), sort by merged_at descending, and report the
warnings of both loops.  The trailing copilot-summary enrichment loop of
the script only mutates the copilot_summaries field, which no claim
mentions, and is omitted. -/
def collectMergedPullRequestsForRange (env : Env) (commits : List Commit) :
    List PR × List Warning :=
  let p1 := collectPrNumbers env [] commits
  let p2 := fetchMergedPrs env p1.1
  (sortByMergedDesc p2.1, p1.2 ++ p2.2)

/-- Failure kinds main can exit with, mirroring the thrown errors of the
script in program order.  upstream stands for any GitHub or update-service
call that rejected. -/
inductive RunError where
  | missingBuildSha : RunError
  | upstream : RunError
  | feedEmpty : RunError
  | internalFeedIndex : RunError
  | resolveBuild (e : ResolveError) : RunError
  | resolvePrev (e : ResolveError) : RunError
  | noPrevious (buildSha : String) : RunError
  | noCommitDate : RunError
  | noVersion : RunError
  | tooManyChanges (count : Nat) : RunError
  | noOpenAiKey : RunError
  | emptyPrs : RunError
  | explainersFailed : RunError
deriving DecidableEq

/-- Files the run has written when it ends: the sha stored into
data/insiders-state.json, the build page under docs/builds, the preview
file, the rebuilt index pages, and the buildSha/previousSha pair of the
.out/build.json metadata.  The prompt-debug, release-notes and installer
artifacts under .out are not tracked: no claim mentions them. -/
structure Writes where
  stateWritten : Option String := none
  pageWritten : Bool := false
  previewWritten : Bool := false
  indexesRebuilt : Bool := false
  metaWritten : Option (String × String) := none
deriving DecidableEq

/-- Console summary of a run that did not throw. -/
structure Summary where
  skipped : Bool
  prCount : Nat
deriving DecidableEq

/-- Embedding of the state-advance block of main: when force-rebuilding,
keep the persisted sha whenever it is truthy, still present in the feed,
and strictly newer (smaller feed index) than the processed build;
otherwise persist the processed build sha. -/
def nextPersistedBuildSha (feed : List String) (persisted : Option String)
    (buildSha : String) (buildIndex : Nat) : String :=
  match persisted with
  | none => buildSha
  | some p =>
    if p = "" then buildSha
    else
      match jsIndexOf feed p with
      | none => buildSha
      | some lastIdx => if lastIdx < buildIndex then p else buildSha

/-- Embedding of the skip guard of main: skip when not previewing, not
forced, a truthy sha is persisted, that sha is still in the feed, and its
feed index is at most the target build index (feed is newest first, so a
smaller index is a newer build). -/
def shouldSkipRun (preview force : Bool) (persisted : Option String)
    (feed : List String) (buildIndex : Nat) : Bool :=
  if preview then false
  else if force then false
  else
    match persisted with
    | none => false
    | some p =>
      if p = "" then false
      else
        match jsIndexOf feed p with
        | none => false
        | some lastIdx => lastIdx ≤ buildIndex

/-- Embedding of the previous-sha selection of main: a truthy
previous-sha argument wins, otherwise the feed entry directly after the
build (its predecessor build, the feed being newest first); a missing or
empty choice throws the no-previous error, and the choice is then
resolved against the feed like the build sha. -/
def resolvePrevious (feed : List String) (buildSha : String)
    (buildIndex : Nat) (override : Option String) : Except RunError String :=
  let requested : Option String :=
    if truthyOpt override then override else feed.get? (buildIndex + 1)
  match requested with
  | none => .error (.noPrevious buildSha)
  | some r =>
    if r = "" then .error (.noPrevious buildSha)
    else
      match resolveShaPrefixOrThrow feed r with
      | .ok p => .ok p
      | .error e => .error (.resolvePrev e)

/-- Embedding of the requested-build selection of main: the latest
endpoint when --latest was passed, otherwise the --build-sha argument; a
falsy result throws the missing-build-sha error. -/
def requestedBuild (env : Env) (args : Args) : Except RunError String :=
  match (if args.latest then env.latestSha
         else Except.ok (args.buildShaArg.getD "")) with
  | .error _ => .error .upstream
  | .ok r => if r = "" then .error .missingBuildSha else .ok r

/-- Embedding of the tail of main after the pull-request ceiling check:
generate explainers (requiring the OpenAI key and a nonempty pull request
list), then write the preview file or the build page, the build metadata,
and, for a non-preview run, the advanced state and the rebuilt indexes. -/
def finishRun (env : Env) (args : Args) (feed : List String)
    (buildSha previousSha : String) (buildIndex : Nat) (prs : List PR) :
    Writes × Except RunError Summary :=
  if env.openaiKey = false then ({}, .error .noOpenAiKey)
  else if prs.length = 0 then ({}, .error .emptyPrs)
  else
    match env.explainersResult with
    | .error _ => ({}, .error .explainersFailed)
    | .ok _ =>
      if args.preview then
        ({ previewWritten := true, metaWritten := some (buildSha, previousSha) },
         .ok { skipped := false, prCount := prs.length })
      else
        ({ stateWritten :=
             some (nextPersistedBuildSha feed env.persisted buildSha buildIndex),
           pageWritten := true,
           indexesRebuilt := true,
           metaWritten := some (buildSha, previousSha) },
         .ok { skipped := false, prCount := prs.length })

/-- Embedding of main, in the program order of the script: requested
build sha, state read, insiders feed (rejecting an empty feed), build sha
resolution, feed index, previous sha, repository info, the skip guard
(which rebuilds the indexes and stops), commit date, package version,
compare, pull-request collection, the 100-pull-request ceiling, and the
finishing phase.  A thrown error returns the writes performed so far. -/
def runMain (env : Env) (args : Args) : Writes × Except RunError Summary :=
  match requestedBuild env args with
  | .error e => ({}, .error e)
  | .ok requested =>
    match env.feed with
    | .error _ => ({}, .error .upstream)
    | .ok feed =>
      if feed = [] then ({}, .error .feedEmpty)
      else
        match resolveShaPrefixOrThrow feed requested with
        | .error e => ({}, .error (.resolveBuild e))
        | .ok buildSha =>
          match jsIndexOf feed buildSha with
          | none => ({}, .error .internalFeedIndex)
          | some buildIndex =>
            match resolvePrevious feed buildSha buildIndex args.previousSha with
            | .error e => ({}, .error e)
            | .ok previousSha =>
              match env.repoInfo with
              | .error _ => ({}, .error .upstream)
              | .ok _branch =>
                if shouldSkipRun args.preview args.force env.persisted feed buildIndex then
                  ({ indexesRebuilt := true }, .ok { skipped := true, prCount := 0 })
                else
                  match env.getCommitDate buildSha with
                  | .error _ => ({}, .error .upstream)
                  | .ok dateOpt =>
                    if truthyOpt dateOpt = false then ({}, .error .noCommitDate)
                    else
                      match env.getPkgVersion buildSha with
                      | .error _ => ({}, .error .upstream)
                      | .ok verOpt =>
                        if truthyOpt verOpt = false then ({}, .error .noVersion)
                        else
                          match env.compare previousSha buildSha with
                          | .error _ => ({}, .error .upstream)
                          | .ok cmp =>
                            let prs :=
                              (collectMergedPullRequestsForRange env cmp.commits).1
                            if prs.length > 100 then
                              ({}, .error (.tooManyChanges prs.length))
                            else
                              finishRun env args feed buildSha previousSha
                                buildIndex prs

/-- Three-entry insiders feed used by the concrete runs below, newest
first. -/
def feedA : List String := ["aaaa111", "bbbb222", "cccc333"]

/-- Merged pull request with a fixed merge timestamp. -/
def prOk (n : Nat) : PR := { number := n, merged_at := some "2026-01-01T00:00:00Z" }

/-- Concrete environment over feedA where every lookup succeeds and each
commit maps to merged pull request 7. -/
def mkEnv (persisted : Option String) : Env :=
  { latestSha := .error ()
    feed := .ok feedA
    persisted := persisted
    repoInfo := .ok "main"
    getCommitDate := fun _ => .ok (some "2026-01-02T03:04:05Z")
    getPkgVersion := fun _ => .ok (some "1.109.0")
    compare := fun _ _ =>
      .ok { commits := [{ sha := some "aaaa111" }]
            totalCommits := some 1
            htmlUrl := some "cmp" }
    pullsForCommit := fun _ => .ok [{ number := some 7 }]
    getPullRequest := fun n => .ok (prOk n)
    openaiKey := true
    explainersResult := .ok () }

/-- Arguments with an explicit build sha. -/
def mkArgs (target : Option String) (prev : Option String)
    (force preview : Bool) : Args :=
  { latest := false, buildShaArg := target, previousSha := prev
    force := force, preview := preview }

/-- Environment whose single commit maps to k distinct pull requests,
numbered 0 to k-1, all merged. -/
def envMany (k : Nat) : Env :=
  { mkEnv none with
    pullsForCommit := fun _ => .ok ((List.range k).map (fun n => { number := some n })) }

/-- Environment whose single commit maps to pull requests 1 and 2, in
that order, both merged at the same instant. -/
def envTie : Env :=
  { mkEnv none with
    pullsForCommit := fun _ => .ok [{ number := some 1 }, { number := some 2 }] }

/-- Environment where the pull-request lookup fails for commit bad and
the detail fetch fails for pull request 9. -/
def envFlaky : Env :=
  { mkEnv none with
    pullsForCommit := fun s => if s = "bad" then .error () else .ok [{ number := some 7 }]
    getPullRequest := fun n => if n = 9 then .error () else .ok (prOk n) }

/-- Environment where every commit maps to the same pull request 42. -/
def envDup : Env :=
  { mkEnv none with
    pullsForCommit := fun _ => .ok [{ number := some 42 }] }

/-- Two distinct revisions, both associated with pull request 42 under
envDup. -/
def commitsDup : List Commit := [{ sha := some "aaaa111" }, { sha := some "bbbb222" }]

/-- Feed of the prefix-resolution examples from the specification. -/
def feedB : List String := ["a1b2c3", "a1b9f0", "d4e5f6"]

/-- The compare result every concrete environment above returns. -/
def cmpA : CompareResult :=
  { commits := [{ sha := some "aaaa111" }], totalCommits := some 1, htmlUrl := some "cmp" }

theorem strMem_iff (v : String) (l : List String) : strMem v l = true ↔ v ∈ l := by
  induction l with
  | nil => simp [strMem]
  | cons x xs ih =>
    by_cases h : x = v
    · simp [strMem, h]
    · have hm : (v ∈ x :: xs) ↔ (v ∈ xs) := by
        constructor
        · intro hmem
          rcases List.mem_cons.mp hmem with h1 | h1
          · exact absurd h1.symm h
          · exact h1
        · exact fun hmem => List.mem_cons_of_mem _ hmem
      simp [strMem, h, ih, hm]

theorem natMem_iff (n : Nat) (l : List Nat) : natMem n l = true ↔ n ∈ l := by
  induction l with
  | nil => simp [natMem]
  | cons x xs ih =>
    by_cases h : x = n
    · simp [natMem, h]
    · have hm : (n ∈ x :: xs) ↔ (n ∈ xs) := by
        constructor
        · intro hmem
          rcases List.mem_cons.mp hmem with h1 | h1
          · exact absurd h1.symm h
          · exact h1
        · exact fun hmem => List.mem_cons_of_mem _ hmem
      simp [natMem, h, ih, hm]

theorem jsIndexOf_get (l : List String) (v : String) (i : Nat)
    (h : jsIndexOf l v = some i) : l.get? i = some v := by
  induction l generalizing i with
  | nil => simp [jsIndexOf] at h
  | cons x xs ih =>
    by_cases hx : x = v
    · simp [jsIndexOf, hx] at h
      subst h
      simp [hx]
    · simp [jsIndexOf, hx] at h
      obtain ⟨j, hj, rfl⟩ := h
      simpa using ih j hj

theorem jsIndexOf_lt_length (l : List String) (v : String) (i : Nat)
    (h : jsIndexOf l v = some i) : i < l.length := by
  have := jsIndexOf_get l v i h
  by_contra hcon
  rw [List.get?_eq_none.mpr (Nat.le_of_not_lt hcon)] at this
  cases this

theorem jsIndexOf_of_mem (l : List String) (v : String) (h : v ∈ l) :
    ∃ i, jsIndexOf l v = some i := by
  induction l with
  | nil => cases h
  | cons x xs ih =>
    by_cases hx : x = v
    · exact ⟨0, by simp [jsIndexOf, hx]⟩
    · rcases List.mem_cons.mp h with h' | h'
      · exact absurd h'.symm hx
      · obtain ⟨j, hj⟩ := ih h'
        exact ⟨j + 1, by simp [jsIndexOf, hx, hj]⟩

theorem jsIndexOf_inj (l : List String) (a b : String) (i : Nat)
    (ha : jsIndexOf l a = some i) (hb : jsIndexOf l b = some i) : a = b := by
  have h1 := jsIndexOf_get l a i ha
  have h2 := jsIndexOf_get l b i hb
  rw [h1] at h2
  cases h2
  rfl

theorem resolve_self (shas : List String) (s : String) (h1 : jsTrim s = s)
    (h2 : s ≠ "") (h3 : s ∈ shas) : resolveShaPrefixOrThrow shas s = .ok s := by
  unfold resolveShaPrefixOrThrow
  simp [h1, h2, (strMem_iff s shas).mpr h3]

theorem resolve_mem (shas : List String) (input b : String)
    (h : resolveShaPrefixOrThrow shas input = .ok b) : b ∈ shas := by
  unfold resolveShaPrefixOrThrow at h
  by_cases h0 : jsTrim input = ""
  · simp [h0] at h
  · simp only [h0, if_false] at h
    by_cases h1 : strMem (jsTrim input) shas = true
    · rw [if_pos h1] at h
      cases h
      exact (strMem_iff _ _).mp h1
    · rw [if_neg h1] at h
      revert h
      cases hfil : shas.filter (fun s => jsStartsWith s (jsTrim input)) with
      | nil => intro h; cases h
      | cons m tl =>
        cases tl with
        | nil =>
          intro h
          cases h
          have hm : b ∈ shas.filter (fun s => jsStartsWith s (jsTrim input)) := by
            rw [hfil]; exact List.mem_singleton.mpr rfl
          exact List.mem_of_mem_filter hm
        | cons m2 tl2 => intro h; cases h

theorem lexLe_refl (l : List Char) : lexLe l l = true := by
  induction l with
  | nil => rfl
  | cons a as ih => simp [lexLe, ih]

theorem lexLe_total (x y : List Char) : lexLe x y = true ∨ lexLe y x = true := by
  induction x generalizing y with
  | nil => left; rfl
  | cons a as ih =>
    cases y with
    | nil => right; rfl
    | cons b bs =>
      rcases Nat.lt_trichotomy a.toNat b.toNat with hlt | heq | hgt
      · left; simp [lexLe, hlt]
      · rcases ih bs with h | h
        · left; simp [lexLe, heq, Nat.lt_irrefl, h]
        · right; simp [lexLe, heq, Nat.lt_irrefl, h]
      · right; simp [lexLe, hgt]

theorem lexLe_trans (x y z : List Char) (hxy : lexLe x y = true)
    (hyz : lexLe y z = true) : lexLe x z = true := by
  induction x generalizing y z with
  | nil => rfl
  | cons a as ih =>
    cases y with
    | nil => simp [lexLe] at hxy
    | cons b bs =>
      cases z with
      | nil => simp [lexLe] at hyz
      | cons c cs =>
        by_cases hab : a.toNat < b.toNat
        · by_cases hbc : b.toNat < c.toNat
          · simp [lexLe, Nat.lt_trans hab hbc]
          · by_cases hcb : c.toNat < b.toNat
            · simp [lexLe, hbc, hcb] at hyz
            · have hbceq : b.toNat = c.toNat := Nat.le_antisymm (Nat.le_of_not_lt hcb) (Nat.le_of_not_lt hbc)
              simp [lexLe, hbceq ▸ hab]
        · by_cases hba : b.toNat < a.toNat
          · simp [lexLe, hab, hba] at hxy
          · have habeq : a.toNat = b.toNat := Nat.le_antisymm (Nat.le_of_not_lt hba) (Nat.le_of_not_lt hab)
            simp only [lexLe, hab, hba, if_false] at hxy
            by_cases hbc : b.toNat < c.toNat
            · simp [lexLe, habeq ▸ hbc]
            · by_cases hcb : c.toNat < b.toNat
              · simp [lexLe, hbc, hcb] at hyz
              · simp only [lexLe, hbc, hcb, if_false] at hyz
                have hac : ¬a.toNat < c.toNat := by omega
                have hca : ¬c.toNat < a.toNat := by omega
                simp [lexLe, hac, hca, ih bs cs hxy hyz]

/-- Descending-key relation of the final sort. -/
def mergedGE (a b : PR) : Prop :=
  lexLe (mergedKey b).data (mergedKey a).data = true

theorem insertByMergedDesc_perm (x : PR) (l : List PR) :
    List.Perm (insertByMergedDesc x l) (x :: l) := by
  induction l with
  | nil => exact List.Perm.refl _
  | cons y ys ih =>
    by_cases hc : lexLe (mergedKey y).data (mergedKey x).data = true
    · simp [insertByMergedDesc, hc]
    · simp only [insertByMergedDesc, hc, if_false]
      exact ((ih.cons y).trans (List.Perm.swap x y ys))

theorem sortByMergedDesc_perm (l : List PR) :
    List.Perm (sortByMergedDesc l) l := by
  induction l with
  | nil => exact List.Perm.refl _
  | cons x xs ih =>
    exact (insertByMergedDesc_perm x (sortByMergedDesc xs)).trans (ih.cons x)

theorem insertByMergedDesc_pairwise (x : PR) (l : List PR)
    (h : l.Pairwise mergedGE) : (insertByMergedDesc x l).Pairwise mergedGE := by
  induction l with
  | nil => simp [insertByMergedDesc, List.pairwise_cons]
  | cons y ys ih =>
    rw [List.pairwise_cons] at h
    obtain ⟨hy, hys⟩ := h
    by_cases hc : lexLe (mergedKey y).data (mergedKey x).data = true
    · simp only [insertByMergedDesc, hc, if_true]
      rw [List.pairwise_cons]
      constructor
      · intro z hz
        rcases List.mem_cons.mp hz with rfl | hz'
        · exact hc
        · exact lexLe_trans _ _ _ (hy z hz') hc
      · rw [List.pairwise_cons]
        exact ⟨hy, hys⟩
    · have hstep : insertByMergedDesc x (y :: ys) = y :: insertByMergedDesc x ys := by
        simp only [insertByMergedDesc]
        rw [if_neg hc]
      rw [hstep, List.pairwise_cons]
      constructor
      · intro z hz
        have hz' := (insertByMergedDesc_perm x ys).mem_iff.mp hz
        rcases List.mem_cons.mp hz' with rfl | hz''
        · rcases lexLe_total (mergedKey y).data (mergedKey z).data with h1 | h1
          · exact absurd h1 hc
          · exact h1
        · exact hy z hz''
      · exact ih hys

theorem sortByMergedDesc_pairwise (l : List PR) :
    (sortByMergedDesc l).Pairwise mergedGE := by
  induction l with
  | nil => simp [sortByMergedDesc]
  | cons x xs ih => exact insertByMergedDesc_pairwise x _ ih

theorem insertByMergedDesc_filter (x : PR) (l : List PR) (k : String) :
    (insertByMergedDesc x l).filter (fun p => mergedKey p = k) =
      (x :: l).filter (fun p => mergedKey p = k) := by
  induction l with
  | nil => rfl
  | cons y ys ih =>
    by_cases hc : lexLe (mergedKey y).data (mergedKey x).data = true
    · simp only [insertByMergedDesc, hc, if_true]
    · have hstep : insertByMergedDesc x (y :: ys) = y :: insertByMergedDesc x ys := by
        simp only [insertByMergedDesc]
        rw [if_neg hc]
      rw [hstep]
      by_cases hx : mergedKey x = k
      · have hy : ¬mergedKey y = k := by
          intro hy
          apply hc
          rw [show mergedKey y = mergedKey x from hy.trans hx.symm]
          exact lexLe_refl _
        simp [List.filter_cons, hx, hy, ih]
      · by_cases hy : mergedKey y = k
        · simp [List.filter_cons, hx, hy, ih]
        · simp [List.filter_cons, hx, hy, ih]

theorem sortByMergedDesc_filter (l : List PR) (k : String) :
    (sortByMergedDesc l).filter (fun p => mergedKey p = k) =
      l.filter (fun p => mergedKey p = k) := by
  induction l with
  | nil => rfl
  | cons x xs ih =>
    have h1 := insertByMergedDesc_filter x (sortByMergedDesc xs) k
    simp only [sortByMergedDesc, h1, List.filter_cons, ih]

theorem addPrNumbers_nodup (refs : List PRRef) (acc : List Nat)
    (h : acc.Nodup) : (addPrNumbers acc refs).Nodup := by
  induction refs generalizing acc with
  | nil => exact h
  | cons r rs ih =>
    cases hr : r.number with
    | none => simpa [addPrNumbers, hr] using ih acc h
    | some n =>
      by_cases hmem : natMem n acc = true
      · simpa [addPrNumbers, hr, hmem] using ih acc h
      · have hnotin : n ∉ acc := fun hmm => hmem ((natMem_iff n acc).mpr hmm)
        have hnew : (acc ++ [n]).Nodup := by
          rw [List.nodup_append]
          refine ⟨h, List.nodup_singleton n, ?_⟩
          intro a ha hb
          rw [List.mem_singleton] at hb
          subst hb
          exact hnotin ha
        simpa [addPrNumbers, hr, hmem] using ih (acc ++ [n]) hnew

theorem collectPrNumbers_nodup (env : Env) (cs : List Commit) (acc : List Nat)
    (h : acc.Nodup) : (collectPrNumbers env acc cs).1.Nodup := by
  induction cs generalizing acc with
  | nil => exact h
  | cons c cs ih =>
    cases hc : c.sha with
    | none => simpa [collectPrNumbers, hc] using ih acc h
    | some s =>
      by_cases hs : s = ""
      · simpa [collectPrNumbers, hc, hs] using ih acc h
      · cases hp : env.pullsForCommit s with
        | ok refs =>
          simpa [collectPrNumbers, hc, hs, hp] using
            ih (addPrNumbers acc refs) (addPrNumbers_nodup refs acc h)
        | error e => simpa [collectPrNumbers, hc, hs, hp] using ih acc h

theorem fetchMergedPrs_map_sublist (env : Env) (ns : List Nat)
    (h : ∀ n pr, env.getPullRequest n = .ok pr → pr.number = n) :
    List.Sublist ((fetchMergedPrs env ns).1.map (fun p => p.number)) ns := by
  induction ns with
  | nil => simp [fetchMergedPrs]
  | cons n ns ih =>
    cases hg : env.getPullRequest n with
    | error e => simpa [fetchMergedPrs, hg] using List.Sublist.cons n ih
    | ok pr =>
      cases hm : pr.merged_at with
      | none => simpa [fetchMergedPrs, hg, hm] using List.Sublist.cons n ih
      | some m =>
        by_cases hms : m = ""
        · simpa [fetchMergedPrs, hg, hm, hms] using List.Sublist.cons n ih
        · have hn : pr.number = n := h n pr hg
          simpa [fetchMergedPrs, hg, hm, hms, hn] using List.Sublist.cons₂ n ih

theorem fetchMergedPrs_merged (env : Env) (ns : List Nat) (pr : PR)
    (h : pr ∈ (fetchMergedPrs env ns).1) :
    ∃ m, pr.merged_at = some m ∧ m ≠ "" := by
  induction ns with
  | nil => simp [fetchMergedPrs] at h
  | cons n ns ih =>
    cases hg : env.getPullRequest n with
    | error e =>
      rw [show (fetchMergedPrs env (n :: ns)).1 = (fetchMergedPrs env ns).1 from by
        simp [fetchMergedPrs, hg]] at h
      exact ih h
    | ok q =>
      cases hm : q.merged_at with
      | none =>
        rw [show (fetchMergedPrs env (n :: ns)).1 = (fetchMergedPrs env ns).1 from by
          simp [fetchMergedPrs, hg, hm]] at h
        exact ih h
      | some m =>
        by_cases hms : m = ""
        · rw [show (fetchMergedPrs env (n :: ns)).1 = (fetchMergedPrs env ns).1 from by
            simp [fetchMergedPrs, hg, hm, hms]] at h
          exact ih h
        · rw [show (fetchMergedPrs env (n :: ns)).1 = q :: (fetchMergedPrs env ns).1 from by
            simp [fetchMergedPrs, hg, hm, hms]] at h
          rcases List.mem_cons.mp h with rfl | h'
          · exact ⟨m, hm, hms⟩
          · exact ih h'

theorem collectPrNumbers_fail_fst (env : Env) (c : Commit) (s : String)
    (l2 : List Commit) (hsha : c.sha = some s) (hne : s ≠ "")
    (herr : env.pullsForCommit s = .error ()) (l1 : List Commit) (acc : List Nat) :
    (collectPrNumbers env acc (l1 ++ c :: l2)).1 =
      (collectPrNumbers env acc (l1 ++ l2)).1 := by
  induction l1 generalizing acc with
  | nil => simp [collectPrNumbers, hsha, hne, herr]
  | cons d l1 ih =>
    cases hd : d.sha with
    | none => simpa [collectPrNumbers, hd] using ih acc
    | some t =>
      by_cases ht : t = ""
      · simpa [collectPrNumbers, hd, ht] using ih acc
      · cases hp : env.pullsForCommit t with
        | ok refs => simpa [collectPrNumbers, hd, ht, hp] using ih (addPrNumbers acc refs)
        | error e => simpa [collectPrNumbers, hd, ht, hp] using ih acc

theorem collectPrNumbers_fail_warn (env : Env) (c : Commit) (s : String)
    (l2 : List Commit) (hsha : c.sha = some s) (hne : s ≠ "")
    (herr : env.pullsForCommit s = .error ()) (l1 : List Commit) (acc : List Nat) :
    Warning.pullsFailed (shortSha s) ∈ (collectPrNumbers env acc (l1 ++ c :: l2)).2 := by
  induction l1 generalizing acc with
  | nil => simp [collectPrNumbers, hsha, hne, herr]
  | cons d l1 ih =>
    cases hd : d.sha with
    | none => simpa [collectPrNumbers, hd] using ih acc
    | some t =>
      by_cases ht : t = ""
      · simpa [collectPrNumbers, hd, ht] using ih acc
      · cases hp : env.pullsForCommit t with
        | ok refs => simpa [collectPrNumbers, hd, ht, hp] using ih (addPrNumbers acc refs)
        | error e =>
          simp only [collectPrNumbers, hd, ht, hp, if_neg]
          exact List.mem_cons_of_mem _ (ih acc)

theorem fetchMergedPrs_fail_fst (env : Env) (n : Nat) (m2 : List Nat)
    (herr : env.getPullRequest n = .error ()) (m1 : List Nat) :
    (fetchMergedPrs env (m1 ++ n :: m2)).1 = (fetchMergedPrs env (m1 ++ m2)).1 := by
  induction m1 with
  | nil => simp [fetchMergedPrs, herr]
  | cons d m1 ih =>
    cases hg : env.getPullRequest d with
    | error e => simp [fetchMergedPrs, hg, ih]
    | ok pr =>
      cases hm : pr.merged_at with
      | none => simp [fetchMergedPrs, hg, hm, ih]
      | some m =>
        by_cases hms : m = ""
        · simp [fetchMergedPrs, hg, hm, hms, ih]
        · simp [fetchMergedPrs, hg, hm, hms, ih]

theorem fetchMergedPrs_fail_warn (env : Env) (n : Nat) (m2 : List Nat)
    (herr : env.getPullRequest n = .error ()) (m1 : List Nat) :
    Warning.prFetchFailed n ∈ (fetchMergedPrs env (m1 ++ n :: m2)).2 := by
  induction m1 with
  | nil => simp [fetchMergedPrs, herr]
  | cons d m1 ih =>
    cases hg : env.getPullRequest d with
    | error e =>
      simp only [List.cons_append, fetchMergedPrs, hg]
      exact List.mem_cons_of_mem _ ih
    | ok pr =>
      cases hm : pr.merged_at with
      | none => simpa [fetchMergedPrs, hg, hm] using ih
      | some m =>
        by_cases hms : m = ""
        · simpa [fetchMergedPrs, hg, hm, hms] using ih
        · simpa [fetchMergedPrs, hg, hm, hms] using ih

theorem finishRun_ne_tooMany (env : Env) (args : Args) (feed : List String)
    (buildSha previousSha : String) (buildIndex : Nat) (prs : List PR) (m : Nat) :
    (finishRun env args feed buildSha previousSha buildIndex prs).2 ≠
      .error (.tooManyChanges m) := by
  unfold finishRun
  by_cases hk : env.openaiKey = false
  · simp [hk]
  · by_cases hl : prs.length = 0
    · simp [hk, hl]
    · cases hexp : env.explainersResult with
      | error e => simp [hk, hl, hexp]
      | ok u =>
        by_cases hp : args.preview
        · simp [hk, hl, hexp, hp]
        · simp [hk, hl, hexp, hp]

theorem finishRun_success (env : Env) (args : Args) (feed : List String)
    (buildSha previousSha : String) (buildIndex : Nat) (prs : List PR)
    (hk : env.openaiKey = true) (hl : prs.length ≠ 0)
    (hexp : env.explainersResult = .ok ()) (hpre : args.preview = false) :
    finishRun env args feed buildSha previousSha buildIndex prs =
      ({ stateWritten :=
           some (nextPersistedBuildSha feed env.persisted buildSha buildIndex),
         pageWritten := true,
         indexesRebuilt := true,
         metaWritten := some (buildSha, previousSha) },
       .ok { skipped := false, prCount := prs.length }) := by
  unfold finishRun
  simp [hk, hl, hexp, hpre]

theorem runMain_noPrevious (env : Env) (args : Args) (requested : String)
    (feed : List String) (buildSha : String) (buildIndex : Nat)
    (h0 : requestedBuild env args = .ok requested)
    (h1 : env.feed = .ok feed) (h1' : feed ≠ [])
    (h2 : resolveShaPrefixOrThrow feed requested = .ok buildSha)
    (h3 : jsIndexOf feed buildSha = some buildIndex)
    (h4 : resolvePrevious feed buildSha buildIndex args.previousSha =
      .error (.noPrevious buildSha)) :
    runMain env args = ({}, .error (.noPrevious buildSha)) := by
  unfold runMain
  simp [h0, h1, h1', h2, h3, h4]

theorem runMain_skip (env : Env) (args : Args) (requested : String)
    (feed : List String) (buildSha : String) (buildIndex : Nat)
    (previousSha : String) (branch : String)
    (h0 : requestedBuild env args = .ok requested)
    (h1 : env.feed = .ok feed) (h1' : feed ≠ [])
    (h2 : resolveShaPrefixOrThrow feed requested = .ok buildSha)
    (h3 : jsIndexOf feed buildSha = some buildIndex)
    (h4 : resolvePrevious feed buildSha buildIndex args.previousSha = .ok previousSha)
    (h5 : env.repoInfo = .ok branch)
    (hskip : shouldSkipRun args.preview args.force env.persisted feed buildIndex = true) :
    runMain env args =
      ({ indexesRebuilt := true }, .ok { skipped := true, prCount := 0 }) := by
  unfold runMain
  simp [h0, h1, h1', h2, h3, h4, h5, hskip]

theorem runMain_processes (env : Env) (args : Args) (requested : String)
    (feed : List String) (buildSha : String) (buildIndex : Nat)
    (previousSha : String) (branch : String) (dateOpt verOpt : Option String)
    (cmp : CompareResult)
    (h0 : requestedBuild env args = .ok requested)
    (h1 : env.feed = .ok feed) (h1' : feed ≠ [])
    (h2 : resolveShaPrefixOrThrow feed requested = .ok buildSha)
    (h3 : jsIndexOf feed buildSha = some buildIndex)
    (h4 : resolvePrevious feed buildSha buildIndex args.previousSha = .ok previousSha)
    (h5 : env.repoInfo = .ok branch)
    (hskip : shouldSkipRun args.preview args.force env.persisted feed buildIndex = false)
    (h6 : env.getCommitDate buildSha = .ok dateOpt) (h6' : truthyOpt dateOpt = true)
    (h7 : env.getPkgVersion buildSha = .ok verOpt) (h7' : truthyOpt verOpt = true)
    (h8 : env.compare previousSha buildSha = .ok cmp) :
    runMain env args =
      (if (collectMergedPullRequestsForRange env cmp.commits).1.length > 100 then
        (({} : Writes),
         .error (.tooManyChanges (collectMergedPullRequestsForRange env cmp.commits).1.length))
      else
        finishRun env args feed buildSha previousSha buildIndex
          (collectMergedPullRequestsForRange env cmp.commits).1) := by
  unfold runMain
  simp [h0, h1, h1', h2, h3, h4, h5, hskip, h6, h6', h7, h7', h8]

theorem shouldSkipRun_none (pv f : Bool) (feed : List String) (bi : Nat) :
    shouldSkipRun pv f none feed bi = false := by
  cases pv <;> cases f <;> simp [shouldSkipRun]

theorem shouldSkipRun_absent (pv f : Bool) (p : String) (feed : List String)
    (bi : Nat) (hp : p ≠ "") (habs : jsIndexOf feed p = none) :
    shouldSkipRun pv f (some p) feed bi = false := by
  cases pv <;> cases f <;> simp [shouldSkipRun, hp, habs]

theorem shouldSkipRun_hit (p : String) (feed : List String) (bi li : Nat)
    (hp : p ≠ "") (hidx : jsIndexOf feed p = some li) (hle : li ≤ bi) :
    shouldSkipRun false false (some p) feed bi = true := by
  simp [shouldSkipRun, hp, hidx, hle]

theorem resolvePrevious_oldest (feed : List String) (buildSha : String)
    (bi : Nat) (ov : Option String) (hov : truthyOpt ov = false)
    (hnone : feed.get? (bi + 1) = none) :
    resolvePrevious feed buildSha bi ov = .error (.noPrevious buildSha) := by
  have hnone' : feed[bi + 1]? = none := by
    rw [← List.get?_eq_getElem?]
    exact hnone
  unfold resolvePrevious
  simp [hov, hnone']

theorem resolvePrevious_default (feed : List String) (buildSha : String)
    (bi : Nat) (ov : Option String) (s : String) (hov : truthyOpt ov = false)
    (hs : feed.get? (bi + 1) = some s) (htrim : jsTrim s = s) (hne : s ≠ "") :
    resolvePrevious feed buildSha bi ov = .ok s := by
  have hs' : feed[bi + 1]? = some s := by
    rw [← List.get?_eq_getElem?]
    exact hs
  unfold resolvePrevious
  simp [hov, hs', hne, resolve_self feed s htrim hne (List.get?_mem hs)]

/-- C4 counterexample: the claim quantifies over every identifier, but
the empty identifier, whose prefix matches the whole two-element feed and
should therefore be Ambiguous by the claim, instead fails with the
distinct missing-input error. -/
theorem C4_counterexample :
    resolveShaPrefixOrThrow ["a1b2c3", "a1b9f0"] "" = .error .missing ∧
    (["a1b2c3", "a1b9f0"].filter (fun s => jsStartsWith s (jsTrim ""))).length = 2 ∧
    resolveShaPrefixOrThrow ["a1b2c3", "a1b9f0"] "" ≠
      .error (.ambiguous 2 ["a1b2c3", "a1b9f0"]) := by
  refine ⟨by decide, by decide, by decide⟩

/-- C4 amended: for every identifier that is nonempty after trimming,
resolution is the claimed trichotomy on the trimmed identifier: an exact
feed member resolves to itself; otherwise a unique prefix match resolves
to that marker, several matches fail with AmbiguousIdentifier carrying
the match count and a sample of at most eight shortened candidates, and
no match fails with NotFound.  Resolution is a pure function, so
determinism is immediate. -/
theorem C4_resolve_trichotomy (feed : List String) (input : String)
    (h : jsTrim input ≠ "") :
    (jsTrim input ∈ feed →
      resolveShaPrefixOrThrow feed input = .ok (jsTrim input)) ∧
    (jsTrim input ∉ feed →
      ∀ m, feed.filter (fun s => jsStartsWith s (jsTrim input)) = [m] →
        resolveShaPrefixOrThrow feed input = .ok m ∧
          jsStartsWith m (jsTrim input) = true ∧ m ∈ feed) ∧
    (jsTrim input ∉ feed →
      1 < (feed.filter (fun s => jsStartsWith s (jsTrim input))).length →
        resolveShaPrefixOrThrow feed input =
          .error (.ambiguous
            (feed.filter (fun s => jsStartsWith s (jsTrim input))).length
            (((feed.filter (fun s => jsStartsWith s (jsTrim input))).take 8).map
              shortSha)) ∧
          (((feed.filter (fun s => jsStartsWith s (jsTrim input))).take 8).map
            shortSha).length ≤ 8) ∧
    (jsTrim input ∉ feed →
      feed.filter (fun s => jsStartsWith s (jsTrim input)) = [] →
        resolveShaPrefixOrThrow feed input = .error .notFound) := by
  refine ⟨?_, ?_, ?_, ?_⟩
  · intro hm
    have hsm : strMem (jsTrim input) feed = true := (strMem_iff _ _).mpr hm
    unfold resolveShaPrefixOrThrow
    simp [h, hsm]
  · intro hnm m hfil
    have hsm : strMem (jsTrim input) feed = false := by
      rw [← Bool.not_eq_true]
      exact fun hh => hnm ((strMem_iff _ _).mp hh)
    have hm' : m ∈ feed.filter (fun s => jsStartsWith s (jsTrim input)) := by
      rw [hfil]
      exact List.mem_singleton.mpr rfl
    refine ⟨?_, (List.mem_filter.mp hm').2, (List.mem_filter.mp hm').1⟩
    unfold resolveShaPrefixOrThrow
    simp [h, hsm, hfil]
  · intro hnm hlen
    have hsm : strMem (jsTrim input) feed = false := by
      rw [← Bool.not_eq_true]
      exact fun hh => hnm ((strMem_iff _ _).mp hh)
    cases hfil : feed.filter (fun s => jsStartsWith s (jsTrim input)) with
    | nil => rw [hfil] at hlen; simp at hlen
    | cons a tl =>
      cases tl with
      | nil => rw [hfil] at hlen; simp at hlen
      | cons b tl2 =>
        constructor
        · unfold resolveShaPrefixOrThrow
          simp [h, hsm, hfil]
        · simp only [List.length_map, List.length_take]
          omega
  · intro hnm hfil
    have hsm : strMem (jsTrim input) feed = false := by
      rw [← Bool.not_eq_true]
      exact fun hh => hnm ((strMem_iff _ _).mp hh)
    unfold resolveShaPrefixOrThrow
    simp [h, hsm, hfil]

/-- C4 witness: on the specification's example feed, the full sha and
the unique prefix resolve, the two-way prefix is ambiguous with both
candidates named, and an unknown identifier is not found. -/
theorem C4_witness :
    resolveShaPrefixOrThrow feedB "a1b2c3" = .ok "a1b2c3" ∧
    resolveShaPrefixOrThrow feedB "a1b2" = .ok "a1b2c3" ∧
    resolveShaPrefixOrThrow feedB "a1" = .error (.ambiguous 2 ["a1b2c3", "a1b9f0"]) ∧
    resolveShaPrefixOrThrow feedB "zz" = .error .notFound := by
  refine ⟨?_, ?_, ?_, ?_⟩
  · exact ((C4_resolve_trichotomy feedB "a1b2c3" (by decide)).1 (by decide)).trans
      (by decide)
  · exact ((C4_resolve_trichotomy feedB "a1b2" (by decide)).2.1 (by decide)
      "a1b2c3" (by decide)).1
  · exact (((C4_resolve_trichotomy feedB "a1" (by decide)).2.2.1 (by decide)
      (by decide)).1).trans (by decide)
  · exact (C4_resolve_trichotomy feedB "zz" (by decide)).2.2.2 (by decide) (by decide)

/-- C8 counterexample: the final sort has no tie-break at all.  Two pull
requests with the same merge timestamp, first encountered as 1 then 2,
come out in encounter order 1, 2 and not in the claimed
number-descending order 2, 1. -/
theorem C8_counterexample :
    ((collectMergedPullRequestsForRange envTie [{ sha := some "aaaa111" }]).1.map
      (fun p => p.number)) = [1, 2] ∧
    (collectMergedPullRequestsForRange envTie [{ sha := some "aaaa111" }]).1 =
      [prOk 1, prOk 2] ∧
    mergedKey (prOk 1) = mergedKey (prOk 2) ∧
    ([1, 2] : List Nat) ≠ [2, 1] := by
  refine ⟨by decide, by decide, by decide, by decide⟩

/-- C8 amended: the collected Change Records are output sorted by merge
timestamp descending (code-point string order), and the sort is stable:
records with equal merge timestamps keep the order in which the second
fetch loop produced them (first-encounter order of their numbers); there
is no further tie-break by number.  The output is a permutation of the
fetched records. -/
theorem C8_sorted_by_merge_desc (env : Env) (commits : List Commit) :
    (collectMergedPullRequestsForRange env commits).1.Pairwise mergedGE ∧
    List.Perm (collectMergedPullRequestsForRange env commits).1
      (fetchMergedPrs env (collectPrNumbers env [] commits).1).1 ∧
    ∀ k, (collectMergedPullRequestsForRange env commits).1.filter
        (fun p => mergedKey p = k) =
      (fetchMergedPrs env (collectPrNumbers env [] commits).1).1.filter
        (fun p => mergedKey p = k) := by
  refine ⟨?_, ?_, ?_⟩
  · exact sortByMergedDesc_pairwise _
  · exact sortByMergedDesc_perm _
  · exact fun k => sortByMergedDesc_filter _ k

/-- C6: under the invariant that the pull-request detail endpoint
returns the record of the requested number, the collected Change set has
pairwise distinct numbers (one entry per Change however many revisions
reference it) and contains only records with a non-null merged_at. -/
theorem C6_dedup_merged_only (env : Env) (commits : List Commit)
    (h : ∀ n pr, env.getPullRequest n = .ok pr → pr.number = n) :
    (collectMergedPullRequestsForRange env commits).1.Pairwise
      (fun a b => a.number ≠ b.number) ∧
    ∀ pr ∈ (collectMergedPullRequestsForRange env commits).1,
      pr.merged_at ≠ none := by
  have hnodup : ((collectPrNumbers env [] commits).1).Nodup :=
    collectPrNumbers_nodup env commits [] List.nodup_nil
  have hsub := fetchMergedPrs_map_sublist env (collectPrNumbers env [] commits).1 h
  have hmapnd : ((fetchMergedPrs env (collectPrNumbers env [] commits).1).1.map
      (fun p => p.number)).Nodup := hsub.nodup hnodup
  have hpw : (fetchMergedPrs env (collectPrNumbers env [] commits).1).1.Pairwise
      (fun a b => a.number ≠ b.number) := List.pairwise_map.mp hmapnd
  have hperm := sortByMergedDesc_perm
    (fetchMergedPrs env (collectPrNumbers env [] commits).1).1
  constructor
  · exact (hperm.pairwise_iff fun hh => Ne.symm hh).mpr hpw
  · intro pr hpr
    have hpr' : pr ∈ (fetchMergedPrs env (collectPrNumbers env [] commits).1).1 :=
      hperm.mem_iff.mp hpr
    obtain ⟨m, hm, _⟩ := fetchMergedPrs_merged env _ pr hpr'
    simp [hm]

/-- C6 witness: two revisions both associated with pull request 42
collapse to the single merged entry 42, with distinct numbers pairwise
by the theorem. -/
theorem C6_witness :
    (collectMergedPullRequestsForRange envDup commitsDup).1 = [prOk 42] ∧
    (collectMergedPullRequestsForRange envDup commitsDup).1.Pairwise
      (fun a b => a.number ≠ b.number) := by
  refine ⟨by decide, (C6_dedup_merged_only envDup commitsDup ?_).1⟩
  intro n pr hh
  have h' : (Except.ok (prOk n) : Except Unit PR) = Except.ok pr := hh
  cases h'
  rfl

/-- C9: a failed per-revision pull-request lookup and a failed per-pull-
request detail fetch are each tolerated: the failing item contributes
only a logged warning, the returned Change set is exactly the one of the
remaining items, and no error propagates out of the collection. -/
theorem C9_lookup_failures_tolerated (env : Env) (c : Commit) (s : String)
    (l1 l2 : List Commit) (n : Nat) (m1 m2 : List Nat)
    (hsha : c.sha = some s) (hne : s ≠ "")
    (herr : env.pullsForCommit s = .error ())
    (herr2 : env.getPullRequest n = .error ()) :
    ((collectMergedPullRequestsForRange env (l1 ++ c :: l2)).1 =
        (collectMergedPullRequestsForRange env (l1 ++ l2)).1 ∧
      Warning.pullsFailed (shortSha s) ∈
        (collectMergedPullRequestsForRange env (l1 ++ c :: l2)).2) ∧
    ((fetchMergedPrs env (m1 ++ n :: m2)).1 = (fetchMergedPrs env (m1 ++ m2)).1 ∧
      Warning.prFetchFailed n ∈ (fetchMergedPrs env (m1 ++ n :: m2)).2) := by
  refine ⟨⟨?_, ?_⟩, fetchMergedPrs_fail_fst env n m2 herr2 m1,
    fetchMergedPrs_fail_warn env n m2 herr2 m1⟩
  · have h1 := collectPrNumbers_fail_fst env c s l2 hsha hne herr l1 []
    simp only [collectMergedPullRequestsForRange]
    rw [h1]
  · have h2 := collectPrNumbers_fail_warn env c s l2 hsha hne herr l1 []
    simp only [collectMergedPullRequestsForRange]
    exact List.mem_append_left _ h2

/-- C9 witness: with the lookup failing for commit bad and the detail
fetch failing for pull request 9, both failures turn into warnings and
the results equal those of the remaining items. -/
theorem C9_witness :
    ((collectMergedPullRequestsForRange envFlaky
        [{ sha := some "bad" }, { sha := some "aaaa111" }]).1 =
      (collectMergedPullRequestsForRange envFlaky [{ sha := some "aaaa111" }]).1) ∧
    Warning.pullsFailed "bad" ∈
      (collectMergedPullRequestsForRange envFlaky
        [{ sha := some "bad" }, { sha := some "aaaa111" }]).2 ∧
    (fetchMergedPrs envFlaky [7, 9]).1 = (fetchMergedPrs envFlaky [7]).1 ∧
    Warning.prFetchFailed 9 ∈ (fetchMergedPrs envFlaky [7, 9]).2 := by
  have h := C9_lookup_failures_tolerated envFlaky { sha := some "bad" } "bad"
    [] [{ sha := some "aaaa111" }] 9 [7] [] rfl (by decide) rfl rfl
  have hshort : shortSha "bad" = "bad" := by decide
  exact ⟨h.1.1, hshort ▸ h.1.2, h.2.1, h.2.2⟩

/-- C2: in a non-preview run without force, with a truthy persisted sha
that is in the feed at a position at or newer than the target, main
skips: it only rebuilds the index pages, writes neither the state file
nor a build page, and reports the skip.  Re-running with the same or an
older target is therefore a no-op for the persisted marker. -/
theorem C2_skip_idempotent (env : Env) (args : Args) (requested : String)
    (feed : List String) (buildSha : String) (buildIndex : Nat)
    (previousSha branch p : String) (lastIdx : Nat)
    (h0 : requestedBuild env args = .ok requested)
    (h1 : env.feed = .ok feed) (h1' : feed ≠ [])
    (h2 : resolveShaPrefixOrThrow feed requested = .ok buildSha)
    (h3 : jsIndexOf feed buildSha = some buildIndex)
    (h4 : resolvePrevious feed buildSha buildIndex args.previousSha = .ok previousSha)
    (h5 : env.repoInfo = .ok branch)
    (hpre : args.preview = false) (hforce : args.force = false)
    (hp : env.persisted = some p) (hp' : p ≠ "")
    (hidx : jsIndexOf feed p = some lastIdx) (hle : lastIdx ≤ buildIndex) :
    runMain env args =
      ({ indexesRebuilt := true }, .ok { skipped := true, prCount := 0 }) := by
  have hskip : shouldSkipRun args.preview args.force env.persisted feed buildIndex = true := by
    rw [hpre, hforce, hp]
    exact shouldSkipRun_hit p feed buildIndex lastIdx hp' hidx hle
  exact runMain_skip env args requested feed buildSha buildIndex previousSha branch
    h0 h1 h1' h2 h3 h4 h5 hskip

/-- C2 witness: with the persisted marker at the head of the feed and an
older target, the run skips and the state file is untouched. -/
theorem C2_witness :
    runMain (mkEnv (some "aaaa111")) (mkArgs (some "bbbb222") none false false) =
      ({ indexesRebuilt := true }, .ok { skipped := true, prCount := 0 }) :=
  C2_skip_idempotent (mkEnv (some "aaaa111")) (mkArgs (some "bbbb222") none false false)
    "bbbb222" feedA "bbbb222" 1 "cccc333" "main" "aaaa111" 0
    rfl rfl (by decide) (by decide) (by decide) (by decide) rfl rfl rfl rfl
    (by decide) (by decide) (by decide)

/-- C5: a run that reaches the collection phase and finds strictly more
than 100 deduplicated merged pull requests fails with TooManyChanges
having written nothing (no state file, no build page, no index, no
metadata), while a run that finds exactly 100 never raises
TooManyChanges. -/
theorem C5_too_many_changes (env : Env) (args : Args) (requested : String)
    (feed : List String) (buildSha : String) (buildIndex : Nat)
    (previousSha branch : String) (dateOpt verOpt : Option String)
    (cmp : CompareResult)
    (h0 : requestedBuild env args = .ok requested)
    (h1 : env.feed = .ok feed) (h1' : feed ≠ [])
    (h2 : resolveShaPrefixOrThrow feed requested = .ok buildSha)
    (h3 : jsIndexOf feed buildSha = some buildIndex)
    (h4 : resolvePrevious feed buildSha buildIndex args.previousSha = .ok previousSha)
    (h5 : env.repoInfo = .ok branch)
    (hskip : shouldSkipRun args.preview args.force env.persisted feed buildIndex = false)
    (h6 : env.getCommitDate buildSha = .ok dateOpt) (h6' : truthyOpt dateOpt = true)
    (h7 : env.getPkgVersion buildSha = .ok verOpt) (h7' : truthyOpt verOpt = true)
    (h8 : env.compare previousSha buildSha = .ok cmp) :
    ((collectMergedPullRequestsForRange env cmp.commits).1.length > 100 →
      runMain env args =
        ({}, .error (.tooManyChanges
          (collectMergedPullRequestsForRange env cmp.commits).1.length))) ∧
    ((collectMergedPullRequestsForRange env cmp.commits).1.length = 100 →
      ∀ m, (runMain env args).2 ≠ .error (.tooManyChanges m)) := by
  have hr := runMain_processes env args requested feed buildSha buildIndex previousSha
    branch dateOpt verOpt cmp h0 h1 h1' h2 h3 h4 h5 hskip h6 h6' h7 h7' h8
  constructor
  · intro hgt
    rw [hr, if_pos hgt]
  · intro h100 m
    rw [hr, if_neg (by omega)]
    exact finishRun_ne_tooMany env args feed buildSha previousSha buildIndex _ m

/-- C5 witness: 101 deduplicated pull requests abort the run with
TooManyChanges and empty writes; 100 do not raise TooManyChanges. -/
theorem C5_witness :
    runMain (envMany 101) (mkArgs (some "aaaa111") none false false) =
      ({}, .error (.tooManyChanges 101)) ∧
    (runMain (envMany 100) (mkArgs (some "aaaa111") none false false)).2 ≠
      .error (.tooManyChanges 100) := by
  constructor
  · have h := (C5_too_many_changes (envMany 101)
      (mkArgs (some "aaaa111") none false false) "aaaa111" feedA "aaaa111" 0
      "bbbb222" "main" (some "2026-01-02T03:04:05Z") (some "1.109.0") cmpA
      rfl rfl (by decide) (by decide) (by decide) (by decide) rfl (by decide)
      rfl (by decide) rfl (by decide) rfl).1 (by decide)
    exact h.trans (by decide)
  · exact (C5_too_many_changes (envMany 100)
      (mkArgs (some "aaaa111") none false false) "aaaa111" feedA "aaaa111" 0
      "bbbb222" "main" (some "2026-01-02T03:04:05Z") (some "1.109.0") cmpA
      rfl rfl (by decide) (by decide) (by decide) (by decide) rfl (by decide)
      rfl (by decide) rfl (by decide) rfl).2 (by decide) 100

/-- C7: with no truthy previous-sha override, a target that is the last
feed entry (no successor) makes the run fail with the no-previous error,
and otherwise the previous boundary resolves to the feed entry directly
after the target. -/
theorem C7_previous_boundary (env : Env) (args : Args) (requested : String)
    (feed : List String) (buildSha : String) (buildIndex : Nat)
    (h0 : requestedBuild env args = .ok requested)
    (h1 : env.feed = .ok feed) (h1' : feed ≠ [])
    (h2 : resolveShaPrefixOrThrow feed requested = .ok buildSha)
    (h3 : jsIndexOf feed buildSha = some buildIndex)
    (hov : truthyOpt args.previousSha = false) :
    (feed.get? (buildIndex + 1) = none →
      runMain env args = ({}, .error (.noPrevious buildSha))) ∧
    (∀ s, feed.get? (buildIndex + 1) = some s → jsTrim s = s → s ≠ "" →
      resolvePrevious feed buildSha buildIndex args.previousSha = .ok s) := by
  constructor
  · intro hnone
    exact runMain_noPrevious env args requested feed buildSha buildIndex h0 h1 h1' h2 h3
      (resolvePrevious_oldest feed buildSha buildIndex args.previousSha hov hnone)
  · intro s hs htrim hne
    exact resolvePrevious_default feed buildSha buildIndex args.previousSha s hov hs htrim hne

/-- C7 witness: the oldest feed entry as target fails with no-previous,
and for the middle entry the previous boundary defaults to the next
(older) feed entry. -/
theorem C7_witness :
    runMain (mkEnv none) (mkArgs (some "cccc333") none false false) =
      ({}, .error (.noPrevious "cccc333")) ∧
    resolvePrevious feedA "bbbb222" 1 none = .ok "cccc333" := by
  constructor
  · exact (C7_previous_boundary (mkEnv none) (mkArgs (some "cccc333") none false false)
      "cccc333" feedA "cccc333" 2 rfl rfl (by decide) (by decide) (by decide) rfl).1 rfl
  · exact (C7_previous_boundary (mkEnv none) (mkArgs (some "bbbb222") none false false)
      "bbbb222" feedA "bbbb222" 1 rfl rfl (by decide) (by decide) (by decide) rfl).2
      "cccc333" (by decide) (by decide) (by decide)

/-- C3 counterexample: main has no bootstrap short-circuit.  With no
persisted marker at all, a run over the concrete environment computes
the range down to the feed successor, writes a build page (Snapshot) and
the metadata, and only then persists the target — contradicting the
claim that no Range is computed and no Snapshot is produced. -/
theorem C3_counterexample :
    (mkEnv none).persisted = none ∧
    runMain (mkEnv none) (mkArgs (some "aaaa111") none false false) =
      ({ stateWritten := some "aaaa111", pageWritten := true, indexesRebuilt := true,
         metaWritten := some ("aaaa111", "bbbb222") },
       .ok { skipped := false, prCount := 1 }) := by
  exact ⟨rfl, by decide⟩

/-- C3 amended: when no marker is persisted, the skip guard cannot fire
and a successful non-preview run processes the target like any other
run: it computes the range against the resolved previous boundary,
writes the build page and metadata, rebuilds the indexes, and persists
the target sha as the new baseline. -/
theorem C3_bootstrap_processes (env : Env) (args : Args) (requested : String)
    (feed : List String) (buildSha : String) (buildIndex : Nat)
    (previousSha branch : String) (dateOpt verOpt : Option String)
    (cmp : CompareResult)
    (h0 : requestedBuild env args = .ok requested)
    (h1 : env.feed = .ok feed) (h1' : feed ≠ [])
    (h2 : resolveShaPrefixOrThrow feed requested = .ok buildSha)
    (h3 : jsIndexOf feed buildSha = some buildIndex)
    (h4 : resolvePrevious feed buildSha buildIndex args.previousSha = .ok previousSha)
    (h5 : env.repoInfo = .ok branch)
    (hper : env.persisted = none)
    (h6 : env.getCommitDate buildSha = .ok dateOpt) (h6' : truthyOpt dateOpt = true)
    (h7 : env.getPkgVersion buildSha = .ok verOpt) (h7' : truthyOpt verOpt = true)
    (h8 : env.compare previousSha buildSha = .ok cmp)
    (hlen : (collectMergedPullRequestsForRange env cmp.commits).1.length ≤ 100)
    (hne0 : (collectMergedPullRequestsForRange env cmp.commits).1.length ≠ 0)
    (hkey : env.openaiKey = true) (hexp : env.explainersResult = .ok ())
    (hpre : args.preview = false) :
    runMain env args =
      ({ stateWritten := some buildSha, pageWritten := true, indexesRebuilt := true,
         metaWritten := some (buildSha, previousSha) },
       .ok { skipped := false,
             prCount := (collectMergedPullRequestsForRange env cmp.commits).1.length }) := by
  have hskip : shouldSkipRun args.preview args.force env.persisted feed buildIndex = false := by
    rw [hper]
    exact shouldSkipRun_none args.preview args.force feed buildIndex
  have hr := runMain_processes env args requested feed buildSha buildIndex previousSha
    branch dateOpt verOpt cmp h0 h1 h1' h2 h3 h4 h5 hskip h6 h6' h7 h7' h8
  rw [hr, if_neg (by omega),
    finishRun_success env args feed buildSha previousSha buildIndex _ hkey hne0 hexp hpre]
  rw [hper]
  rfl

/-- C3 witness: the concrete bootstrap run derived through the amended
theorem: target persisted, page and metadata written, one pull request
reported. -/
theorem C3_witness :
    runMain (mkEnv none) (mkArgs (some "aaaa111") none false false) =
      ({ stateWritten := some "aaaa111", pageWritten := true, indexesRebuilt := true,
         metaWritten := some ("aaaa111", "bbbb222") },
       .ok { skipped := false, prCount := 1 }) := by
  have h := C3_bootstrap_processes (mkEnv none) (mkArgs (some "aaaa111") none false false)
    "aaaa111" feedA "aaaa111" 0 "bbbb222" "main" (some "2026-01-02T03:04:05Z")
    (some "1.109.0") cmpA
    rfl rfl (by decide) (by decide) (by decide) (by decide) rfl rfl
    rfl (by decide) rfl (by decide) rfl (by decide) (by decide) rfl rfl rfl
  exact h.trans (by decide)

/-- C1 counterexample: a persisted marker absent from the current feed
falsifies the claim's otherwise-branch.  Here the prior marker exists
and sits at no feed position, yet a successful run of an older-in-name
target replaces it instead of keeping it. -/
theorem C1_counterexample :
    strMem "zzzz999" feedA = false ∧
    (mkEnv (some "zzzz999")).persisted = some "zzzz999" ∧
    (runMain (mkEnv (some "zzzz999"))
      (mkArgs (some "aaaa111") none false false)).1.stateWritten = some "aaaa111" ∧
    ("aaaa111" : String) ≠ "zzzz999" := by
  refine ⟨by decide, rfl, by decide, by decide⟩

/-- C1 amended: a successful non-preview processed run persists exactly
nextPersistedBuildSha.  That sha is the target when no marker was
persisted, when the persisted one is absent from the feed, or when the
persisted one sits at a strictly older (larger) feed position; it is the
unchanged persisted marker when that marker sits at a strictly newer
(smaller) feed position; at an equal position target and marker
coincide.  Whenever the prior marker has a feed position, the persisted
sha after the run sits at a position at least as new — the pointer never
moves backward in the feed. -/
theorem C1_marker_never_regresses (env : Env) (args : Args) (requested : String)
    (feed : List String) (buildSha : String) (buildIndex : Nat)
    (previousSha branch : String) (dateOpt verOpt : Option String)
    (cmp : CompareResult)
    (h0 : requestedBuild env args = .ok requested)
    (h1 : env.feed = .ok feed) (h1' : feed ≠ [])
    (h2 : resolveShaPrefixOrThrow feed requested = .ok buildSha)
    (h3 : jsIndexOf feed buildSha = some buildIndex)
    (h4 : resolvePrevious feed buildSha buildIndex args.previousSha = .ok previousSha)
    (h5 : env.repoInfo = .ok branch)
    (hskip : shouldSkipRun args.preview args.force env.persisted feed buildIndex = false)
    (h6 : env.getCommitDate buildSha = .ok dateOpt) (h6' : truthyOpt dateOpt = true)
    (h7 : env.getPkgVersion buildSha = .ok verOpt) (h7' : truthyOpt verOpt = true)
    (h8 : env.compare previousSha buildSha = .ok cmp)
    (hlen : (collectMergedPullRequestsForRange env cmp.commits).1.length ≤ 100)
    (hne0 : (collectMergedPullRequestsForRange env cmp.commits).1.length ≠ 0)
    (hkey : env.openaiKey = true) (hexp : env.explainersResult = .ok ())
    (hpre : args.preview = false) :
    (runMain env args).1.stateWritten =
      some (nextPersistedBuildSha feed env.persisted buildSha buildIndex) ∧
    (env.persisted = none →
      nextPersistedBuildSha feed env.persisted buildSha buildIndex = buildSha) ∧
    (∀ p, env.persisted = some p → jsIndexOf feed p = none →
      nextPersistedBuildSha feed env.persisted buildSha buildIndex = buildSha) ∧
    (∀ p li, env.persisted = some p → p ≠ "" → jsIndexOf feed p = some li →
      buildIndex < li →
      nextPersistedBuildSha feed env.persisted buildSha buildIndex = buildSha) ∧
    (∀ p li, env.persisted = some p → p ≠ "" → jsIndexOf feed p = some li →
      li < buildIndex →
      nextPersistedBuildSha feed env.persisted buildSha buildIndex = p) ∧
    (∀ p li, env.persisted = some p → p ≠ "" → jsIndexOf feed p = some li →
      li = buildIndex → buildSha = p) ∧
    (∀ p li, env.persisted = some p → p ≠ "" → jsIndexOf feed p = some li →
      ∃ ni, jsIndexOf feed
          (nextPersistedBuildSha feed env.persisted buildSha buildIndex) = some ni ∧
        ni ≤ li) := by
  have hr := runMain_processes env args requested feed buildSha buildIndex previousSha
    branch dateOpt verOpt cmp h0 h1 h1' h2 h3 h4 h5 hskip h6 h6' h7 h7' h8
  refine ⟨?_, ?_, ?_, ?_, ?_, ?_, ?_⟩
  · rw [hr, if_neg (by omega),
      finishRun_success env args feed buildSha previousSha buildIndex _ hkey hne0 hexp hpre]
  · intro hper
    rw [hper]
    rfl
  · intro p hper habs
    rw [hper]
    by_cases hpp : p = "" <;> simp [nextPersistedBuildSha, hpp, habs]
  · intro p li hper hp hidx hlt
    rw [hper]
    simp only [nextPersistedBuildSha, hp, if_false, hidx]
    rw [if_neg (by omega)]
  · intro p li hper hp hidx hlt
    rw [hper]
    simp only [nextPersistedBuildSha, hp, if_false, hidx]
    rw [if_pos hlt]
  · intro p li hper hp hidx heq
    exact jsIndexOf_inj feed buildSha p buildIndex h3 (heq ▸ hidx)
  · intro p li hper hp hidx
    by_cases hlt : li < buildIndex
    · have hN : nextPersistedBuildSha feed env.persisted buildSha buildIndex = p := by
        rw [hper]
        simp only [nextPersistedBuildSha, hp, if_false, hidx]
        rw [if_pos hlt]
      refine ⟨li, ?_, Nat.le_refl li⟩
      rw [hN]
      exact hidx
    · have hN : nextPersistedBuildSha feed env.persisted buildSha buildIndex = buildSha := by
        rw [hper]
        simp only [nextPersistedBuildSha, hp, if_false, hidx]
        rw [if_neg hlt]
      refine ⟨buildIndex, ?_, by omega⟩
      rw [hN]
      exact h3

/-- C1 witness: force-reprocessing the older middle build while the feed
head is persisted leaves the persisted sha at the newer head, through
the amended theorem. -/
theorem C1_witness :
    (runMain (mkEnv (some "aaaa111"))
      (mkArgs (some "bbbb222") none true false)).1.stateWritten = some "aaaa111" := by
  have h := C1_marker_never_regresses (mkEnv (some "aaaa111"))
    (mkArgs (some "bbbb222") none true false) "bbbb222" feedA "bbbb222" 1
    "cccc333" "main" (some "2026-01-02T03:04:05Z") (some "1.109.0") cmpA
    rfl rfl (by decide) (by decide) (by decide) (by decide) rfl (by decide)
    rfl (by decide) rfl (by decide) rfl (by decide) (by decide) rfl rfl rfl
  exact h.1.trans (by decide)

/-- C10: a truthy persisted sha that no longer appears in the feed never
satisfies the skip guard, so the run processes the target regardless of
force, and a successful non-preview run persists the target sha in its
place — even a target that is older in real time overwrites it. -/
theorem C10_absent_marker_overwritten (env : Env) (args : Args) (requested : String)
    (feed : List String) (buildSha : String) (buildIndex : Nat)
    (previousSha branch p : String) (dateOpt verOpt : Option String)
    (cmp : CompareResult)
    (h0 : requestedBuild env args = .ok requested)
    (h1 : env.feed = .ok feed) (h1' : feed ≠ [])
    (h2 : resolveShaPrefixOrThrow feed requested = .ok buildSha)
    (h3 : jsIndexOf feed buildSha = some buildIndex)
    (h4 : resolvePrevious feed buildSha buildIndex args.previousSha = .ok previousSha)
    (h5 : env.repoInfo = .ok branch)
    (hp : env.persisted = some p) (hp' : p ≠ "")
    (habs : jsIndexOf feed p = none)
    (h6 : env.getCommitDate buildSha = .ok dateOpt) (h6' : truthyOpt dateOpt = true)
    (h7 : env.getPkgVersion buildSha = .ok verOpt) (h7' : truthyOpt verOpt = true)
    (h8 : env.compare previousSha buildSha = .ok cmp)
    (hlen : (collectMergedPullRequestsForRange env cmp.commits).1.length ≤ 100)
    (hne0 : (collectMergedPullRequestsForRange env cmp.commits).1.length ≠ 0)
    (hkey : env.openaiKey = true) (hexp : env.explainersResult = .ok ())
    (hpre : args.preview = false) :
    shouldSkipRun args.preview args.force env.persisted feed buildIndex = false ∧
    runMain env args =
      ({ stateWritten := some buildSha, pageWritten := true, indexesRebuilt := true,
         metaWritten := some (buildSha, previousSha) },
       .ok { skipped := false,
             prCount := (collectMergedPullRequestsForRange env cmp.commits).1.length }) := by
  have hskip : shouldSkipRun args.preview args.force env.persisted feed buildIndex = false := by
    rw [hp]
    exact shouldSkipRun_absent args.preview args.force p feed buildIndex hp' habs
  refine ⟨hskip, ?_⟩
  have hr := runMain_processes env args requested feed buildSha buildIndex previousSha
    branch dateOpt verOpt cmp h0 h1 h1' h2 h3 h4 h5 hskip h6 h6' h7 h7' h8
  rw [hr, if_neg (by omega),
    finishRun_success env args feed buildSha previousSha buildIndex _ hkey hne0 hexp hpre]
  have hN : nextPersistedBuildSha feed env.persisted buildSha buildIndex = buildSha := by
    rw [hp]
    simp [nextPersistedBuildSha, hp', habs]
  rw [hN]

/-- C10 witness: persisted sha zzzz999 absent from the feed: the guard
is false and the run persists the target aaaa111 in its place. -/
theorem C10_witness :
    shouldSkipRun false false (some "zzzz999") feedA 0 = false ∧
    runMain (mkEnv (some "zzzz999")) (mkArgs (some "aaaa111") none false false) =
      ({ stateWritten := some "aaaa111", pageWritten := true, indexesRebuilt := true,
         metaWritten := some ("aaaa111", "bbbb222") },
       .ok { skipped := false, prCount := 1 }) := by
  have h := C10_absent_marker_overwritten (mkEnv (some "zzzz999"))
    (mkArgs (some "aaaa111") none false false) "aaaa111" feedA "aaaa111" 0
    "bbbb222" "main" "zzzz999" (some "2026-01-02T03:04:05Z") (some "1.109.0") cmpA
    rfl rfl (by decide) (by decide) (by decide) (by decide) rfl rfl (by decide)
    (by decide) rfl (by decide) rfl (by decide) rfl (by decide) (by decide) rfl rfl rfl
  exact ⟨h.1, h.2.trans (by decide)⟩
